import Mathlib

/-!
Verification development for the Stockfish evaluation-session layer of the
chess-analysis repository: the info-line parser (`parseInfoLine`), the line
reassembler of the streaming route, and the streaming session state machine
(`evaluatePositionStream` in `app/api/stockfish/route.ts`), embedded shallowly.

JS regular-expression searches (`line.match(/depth (\d+)/)` and friends) are
embedded as left-to-right scanners over the character list: at each position
the scanner tries to match the literal key followed by the capture class and
otherwise advances one character, exactly as the regex engine retries at each
index.  JS numbers on the centipawn/nps paths are embedded as rationals.
-/

/-- Digit list to natural number, most significant first (value of the capture
of `\d+`, as computed by `parseInt(_, 10)`). -/
def digitsToNat (ds : List Char) : Nat :=
  ds.foldl (fun n c => 10 * n + (c.toNat - 48)) 0

/-- Value of a signed capture `-?\d+` as computed by `parseInt(_, 10)`. -/
def intOfCapture (cs : List Char) : Int :=
  match cs with
  | '-' :: ds => -(digitsToNat ds : Int)
  | ds => (digitsToNat ds : Int)

/-- Scanner for `<key>(\d+)`: find the leftmost position where the literal
`key` is followed by at least one digit and return the maximal digit run
there; otherwise advance one position, like the regex engine. -/
def scanNum (key : List Char) : List Char → Option (List Char)
  | [] => none
  | c :: cs =>
    if key.isPrefixOf (c :: cs) then
      let ds := ((c :: cs).drop key.length).takeWhile Char.isDigit
      if ds.isEmpty then scanNum key cs else some ds
    else scanNum key cs

/-- Scanner for `<key>(-?\d+)`: like `scanNum` but the capture may carry one
leading minus sign.  Returns the raw capture (sign included). -/
def scanSigned (key : List Char) : List Char → Option (List Char)
  | [] => none
  | c :: cs =>
    if key.isPrefixOf (c :: cs) then
      match (c :: cs).drop key.length with
      | '-' :: rest =>
        let ds := rest.takeWhile Char.isDigit
        if ds.isEmpty then scanSigned key cs else some ('-' :: ds)
      | rest =>
        let ds := rest.takeWhile Char.isDigit
        if ds.isEmpty then scanSigned key cs else some ds
    else scanSigned key cs

/-- Character class `\w` of JS regexes: ASCII letters, digits, underscore. -/
def isWordChar (c : Char) : Bool := c.isAlphanum || c == '_'

/-- Scanner for `<key>(\w+)`: maximal word-character run after the leftmost
viable occurrence of `key`. -/
def scanWord (key : List Char) : List Char → Option (List Char)
  | [] => none
  | c :: cs =>
    if key.isPrefixOf (c :: cs) then
      let ws := ((c :: cs).drop key.length).takeWhile isWordChar
      if ws.isEmpty then scanWord key cs else some ws
    else scanWord key cs

/-- Scanner for `<key>(.+)`: everything after the leftmost viable occurrence
of `key`, up to (excluding) the next newline, required nonempty (`.` does not
match a newline in JS). -/
def scanRest (key : List Char) : List Char → Option (List Char)
  | [] => none
  | c :: cs =>
    if key.isPrefixOf (c :: cs) then
      let ws := ((c :: cs).drop key.length).takeWhile (fun ch => ch ≠ '\n')
      if ws.isEmpty then scanRest key cs else some ws
    else scanRest key cs

/-- Substring test on character lists (JS `String.prototype.includes`). -/
def hasSub (pat : List Char) : List Char → Bool
  | [] => pat.isPrefixOf []
  | c :: cs => pat.isPrefixOf (c :: cs) || hasSub pat cs

/-- JS `line.includes(pat)`. -/
def hasSubStr (s pat : String) : Bool := hasSub pat.toList s.toList

/-- JS `line.startsWith(p)`. -/
def strStartsWith (s p : String) : Bool := p.toList.isPrefixOf s.toList

/-- String-level wrapper for `scanNum`, value as a natural number. -/
def matchNum (key line : String) : Option Nat :=
  (scanNum key.toList line.toList).map digitsToNat

/-- String-level wrapper for `scanSigned`, raw capture as a string. -/
def matchSignedCap (key line : String) : Option String :=
  (scanSigned key.toList line.toList).map (fun l => String.mk l)

/-- String-level wrapper for `scanSigned`, value as an integer. -/
def matchInt (key line : String) : Option Int :=
  (scanSigned key.toList line.toList).map intOfCapture

/-- String-level wrapper for `scanWord`. -/
def matchWord (key line : String) : Option String :=
  (scanWord key.toList line.toList).map (fun l => String.mk l)

/-- String-level wrapper for `scanRest`. -/
def matchRest (key line : String) : Option String :=
  (scanRest key.toList line.toList).map (fun l => String.mk l)

/-- The `evaluation` field of `StockfishEvaluation`: `number | string | null`
in the source; the string case only ever holds mate markers `M<n>`. -/
inductive EvalScore where
  | unset : EvalScore
  | num : ℚ → EvalScore
  | mate : String → EvalScore
deriving DecidableEq, Repr

/-- The `StockfishEvaluation` record of `app/api/stockfish/route.ts`
(streaming route: the variant carrying `fen` for perspective correction). -/
structure StockfishEvaluation where
  evaluation : EvalScore
  bestMove : String
  principalVariation : List String
  depth : Nat
  nodes : Nat
  time : Nat
  nps : Option Int
  fen : String
deriving DecidableEq, Repr

/-- The running result created at session start by `evaluatePositionStream`. -/
def initResult (fen : String) : StockfishEvaluation :=
  { evaluation := .unset, bestMove := "", principalVariation := [],
    depth := 0, nodes := 0, time := 0, nps := none, fen := fen }

/-- Stanza `const depthMatch = line.match(/depth (\d+)/); if (depthMatch) result.depth = parseInt(depthMatch[1], 10);`. -/
def applyDepth (line : String) (r : StockfishEvaluation) : StockfishEvaluation :=
  match matchNum "depth " line with
  | some d => { r with depth := d }
  | none => r

/-- Stanza `const nodesMatch = line.match(/nodes (\d+)/); ...`. -/
def applyNodes (line : String) (r : StockfishEvaluation) : StockfishEvaluation :=
  match matchNum "nodes " line with
  | some n => { r with nodes := n }
  | none => r

/-- Stanza `const timeMatch = line.match(/time (\d+)/); ...`. -/
def applyTime (line : String) (r : StockfishEvaluation) : StockfishEvaluation :=
  match matchNum "time " line with
  | some t => { r with time := t }
  | none => r

/-- JS `s.split(' ')` on character lists: split at every space, keeping
empty fragments, never returning an empty part list. -/
def splitSpace : List Char → List (List Char)
  | [] => [[]]
  | c :: cs =>
    if c = ' ' then [] :: splitSpace cs
    else
      match splitSpace cs with
      | [] => [[c]]
      | l :: ls => (c :: l) :: ls

/-- JS `s.split(' ')` at the string level. -/
def splitSpaceStr (s : String) : List String :=
  (splitSpace s.toList).map (fun l => String.mk l)

/-- Stanza `if (line.includes('score cp')) { const match = line.match(/score cp (-?\d+)/); if (match) { let evalCp = parseInt(match[1], 10); if (result.fen) { const sideToMove = result.fen.split(' ')[1]; if (sideToMove === 'b') evalCp = -evalCp; } result.evaluation = evalCp / 100; } }`. -/
def applyCp (line : String) (r : StockfishEvaluation) : StockfishEvaluation :=
  if hasSubStr line "score cp" then
    match matchInt "score cp " line with
    | some x =>
      let evalCp : Int :=
        if r.fen ≠ "" then
          if (splitSpaceStr r.fen)[1]? = some "b" then -x else x
        else x
      { r with evaluation := .num ((evalCp : ℚ) / 100) }
    | none => r
  else r

/-- Stanza `if (line.includes('score mate')) { const match = line.match(/score mate (-?\d+)/); if (match) result.evaluation = 'M' + match[1]; }`. -/
def applyMate (line : String) (r : StockfishEvaluation) : StockfishEvaluation :=
  if hasSubStr line "score mate" then
    match matchSignedCap "score mate " line with
    | some cap => { r with evaluation := .mate ("M" ++ cap) }
    | none => r
  else r

/-- Stanza `if (line.includes('pv ')) { const pvMatch = line.match(/pv (.+)/); if (pvMatch) result.principalVariation = pvMatch[1].split(' ').slice(0, 6); }`. -/
def applyPv (line : String) (r : StockfishEvaluation) : StockfishEvaluation :=
  if hasSubStr line "pv " then
    match matchRest "pv " line with
    | some rest => { r with principalVariation := (splitSpaceStr rest).take 6 }
    | none => r
  else r

/-- The function `parseInfoLine(line, result)` of the streaming route: the
five field stanzas applied in source order (depth, nodes, time, score cp,
score mate, pv). -/
def parseInfoLine (line : String) (r : StockfishEvaluation) : StockfishEvaluation :=
  applyPv line (applyMate line (applyCp line (applyTime line (applyNodes line (applyDepth line r)))))

example : matchNum "depth " "info depth 5 nodes 10" = some 5 := by decide
example : matchNum "depth " "info depthx 5" = none := by decide
example : matchInt "score cp " "info score cp -37" = some (-37) := by decide
example : matchWord "bestmove " "bestmove (none)" = none := by decide
example : matchWord "bestmove " "bestmove e2e4 ponder e7e5" = some "e2e4" := by decide
example : matchRest "pv " "info pv e2e4 e7e5" = some "e2e4 e7e5" := by decide
example : hasSubStr "info depth 3" "depth" = true := by decide
example : strStartsWith "bestmove e2e4" "bestmove" = true := by decide

/-- JS `buf.split('\n')` on character lists: the result is always nonempty,
splits at every newline, and never yields a fragment containing a newline. -/
def splitNl : List Char → List (List Char)
  | [] => [[]]
  | c :: cs =>
    if c = '\n' then [] :: splitNl cs
    else
      match splitNl cs with
      | [] => [[c]]
      | l :: ls => (c :: l) :: ls

/-- JS `output.split('\n')` at the string level. -/
def jsSplitNl (s : String) : List String :=
  (splitNl s.toList).map (fun l => String.mk l)

/-- Concatenation of the successive raw chunks delivered on the channel. -/
def concatChunks : List String → String
  | [] => ""
  | c :: cs => c ++ concatChunks cs

/-- The line reassembler of the streaming route
(`output += data.toString(); const lines = output.split('\n'); output = lines.pop() || '';`),
folded over a whole chunk sequence from a given carry buffer: returns the
complete lines surfaced, in order, and the final carry buffer. -/
def feedChunks (buf : String) : List String → List String × String
  | [] => ([], buf)
  | ch :: rest =>
    let parts := jsSplitNl (buf ++ ch)
    let out := feedChunks (parts.getLastD "") rest
    (parts.dropLast ++ out.1, out.2)

/-- One reassembler instance per session, starting from an empty buffer. -/
def reassemble (chunks : List String) : List String × String :=
  feedChunks "" chunks

example : reassemble ["info dep", "th 5 nodes 10\nbestm", "ove e2e4\n"]
    = (["info depth 5 nodes 10", "bestmove e2e4"], "") := by decide

/-- JS `Math.round`, which is floor of the argument plus one half. -/
def jsRound (q : ℚ) : Int := ⌊q + 1 / 2⌋

/-- One record written to the chunked response stream: an intermediate
`{type:'info', ...result}` object, the terminal `{type:'done', ...result}`
object, or an `{error: msg}` object. -/
inductive Snapshot where
  | info : StockfishEvaluation → Snapshot
  | done : StockfishEvaluation → Snapshot
  | error : String → Snapshot
deriving DecidableEq, Repr

/-- Decidable test for an intermediate snapshot. -/
def isInfoB : Snapshot → Bool
  | .info _ => true
  | _ => false

/-- Decidable test for the terminal snapshot. -/
def isDoneB : Snapshot → Bool
  | .done _ => true
  | _ => false

/-- Decidable test for an error snapshot. -/
def isErrB : Snapshot → Bool
  | .error _ => true
  | _ => false

/-- Events delivered to `evaluatePositionStream`'s handlers by the engine
channel and the timer: a raw stdout chunk, a process `error` event, the
process `close` event with its exit code, and the timeout timer firing.
Timer cancellation (`clearTimeout`) is not tracked: `timerFire` may occur at
any point of a run, which only adds behaviours, and the handlers' own guards
must cope. -/
inductive Event where
  | data : String → Event
  | procError : String → Event
  | procClose : Option Int → Event
  | timerFire : Event
deriving DecidableEq, Repr

/-- Mutable state of one `evaluatePositionStream` session: the reassembly
buffer `output`, the closure variables `lastDepth` and `finished`, the
running `result`, the stream controller (`closed` once `controller.close()`
ran), whether the engine process was killed, and the records delivered to the
caller in order. -/
structure SessionState where
  output : String
  lastDepth : Nat
  finished : Bool
  result : StockfishEvaluation
  closed : Bool
  killed : Bool
  emitted : List Snapshot
deriving DecidableEq, Repr

/-- Session state at the top of `evaluatePositionStream`, after a successful
spawn. -/
def initSession (fen : String) : SessionState :=
  { output := "", lastDepth := 0, finished := false, result := initResult fen,
    closed := false, killed := false, emitted := [] }

/-- The effect of `controller.enqueue(x)`: appends the record when the stream
is still open.  On a closed controller `enqueue` throws instead of
delivering; every statement the source runs after such an enqueue is a
no-op on the remaining state (a repeated `controller.close()` or a kill of an
already-dead process), so the throw is modelled as skipping the delivery. -/
def emit (s : SessionState) (x : Snapshot) : SessionState :=
  if s.closed then s else { s with emitted := s.emitted ++ [x] }

/-- Branch `if (line.startsWith('info') && line.includes('depth'))` of the
stdout handler: parse the line into the running result and, when the depth
strictly exceeds the depth at the last emission, record the new last depth
and enqueue an intermediate snapshot. -/
def infoBranch (s : SessionState) (line : String) : SessionState :=
  if strStartsWith line "info" && hasSubStr line "depth" then
    if decide (s.lastDepth < (parseInfoLine line s.result).depth) then
      emit { s with result := parseInfoLine line s.result,
                    lastDepth := (parseInfoLine line s.result).depth }
        (.info (parseInfoLine line s.result))
    else { s with result := parseInfoLine line s.result }
  else s

/-- Result mutations of the `bestmove` branch before the terminal snapshot is
enqueued: extract the best-move token when `/bestmove (\w+)/` matches, and
derive `nps` when the accumulated `time` is strictly positive. -/
def bestmoveResult (r : StockfishEvaluation) (line : String) : StockfishEvaluation :=
  let r :=
    match matchWord "bestmove " line with
    | some m => { r with bestMove := m }
    | none => r
  if decide (0 < r.time) then
    { r with nps := some (jsRound ((r.nodes : ℚ) / ((r.time : ℚ) / 1000))) }
  else r

/-- Body of the per-line part of the stdout handler of
`evaluatePositionStream`: the `info`/`depth` branch and the `bestmove`
branch.  The returned flag records whether the handler executed `return`
(terminal line processed), which stops the loop over the remaining lines of
the chunk. -/
def processLine (s : SessionState) (line : String) : SessionState × Bool :=
  if strStartsWith line "bestmove" then
    ({ emit { infoBranch s line with
          result := bestmoveResult (infoBranch s line).result line, finished := true }
        (.done (bestmoveResult (infoBranch s line).result line)) with
      closed := true, killed := true }, true)
  else (infoBranch s line, false)

/-- The `for (const line of lines)` loop of the stdout handler, honouring the
early `return` after a `bestmove` line. -/
def processLines : SessionState → List String → SessionState
  | s, [] => s
  | s, line :: rest =>
    match processLine s line with
    | (s', true) => s'
    | (s', false) => processLines s' rest

/-- The stdout `data` handler: append the chunk to the carry buffer, split on
newlines, pop the trailing fragment back into the buffer, process the
complete lines. -/
def handleData (s : SessionState) (chunk : String) : SessionState :=
  let parts := jsSplitNl (s.output ++ chunk)
  processLines { s with output := parts.getLastD "" } parts.dropLast

/-- Event dispatch of `evaluatePositionStream`: the stdout handler, the
process `error` handler, the process `close` handler, and the timeout
callback (which kills the engine and emits the timeout error only when the
session has not already finished). -/
def stepSession (s : SessionState) : Event → SessionState
  | .data chunk => handleData s chunk
  | .procError msg =>
    let s := emit s (.error ("Stockfish process error: " ++ msg))
    { s with closed := true }
  | .procClose code =>
    match code with
    | some c =>
      if !s.finished && decide (c ≠ 0) then
        let s := emit s (.error ("Stockfish exited with code " ++ toString c))
        { s with closed := true }
      else s
    | none => s
  | .timerFire =>
    if !s.finished then
      let s := { s with killed := true }
      let s := emit s (.error "Stockfish evaluation timeout")
      { s with closed := true }
    else s

/-- A whole session run from a given state. -/
def runFrom (s : SessionState) (evs : List Event) : SessionState :=
  evs.foldl stepSession s

/-- A whole session run of `evaluatePositionStream(fen, ...)` over a sequence
of channel/timer events. -/
def runSession (fen : String) (evs : List Event) : SessionState :=
  runFrom (initSession fen) evs

/-- Depths carried by the emitted intermediate snapshots, in emission order. -/
def infoDepths (l : List Snapshot) : List Nat :=
  l.filterMap (fun x => match x with | .info r => some r.depth | _ => none)

example :
    (runSession "f" [.data "info depth 1 x\ninfo depth 1 y\ninfo depth 2 z\n"]).emitted.length = 2 := by
  decide
example :
    (runSession "f" [.data "bestmove e2e4\n"]).emitted
      = [.done { initResult "f" with bestMove := "e2e4" }] := by decide
example :
    (runSession "f" [.data "info depth 5\nbestmove e2e4\n", .timerFire]).emitted.length = 2 := by
  decide

/-- Characterization of the depth stanza. -/
lemma applyDepth_eq (line : String) (r : StockfishEvaluation) :
    applyDepth line r = { r with depth := (matchNum "depth " line).getD r.depth } := by
  unfold applyDepth
  cases matchNum "depth " line <;> rfl

/-- Characterization of the nodes stanza. -/
lemma applyNodes_eq (line : String) (r : StockfishEvaluation) :
    applyNodes line r = { r with nodes := (matchNum "nodes " line).getD r.nodes } := by
  unfold applyNodes
  cases matchNum "nodes " line <;> rfl

/-- Characterization of the time stanza. -/
lemma applyTime_eq (line : String) (r : StockfishEvaluation) :
    applyTime line r = { r with time := (matchNum "time " line).getD r.time } := by
  unfold applyTime
  cases matchNum "time " line <;> rfl

/-- The centipawn stanza touches only `evaluation`. -/
lemma applyCp_frame (line : String) (r : StockfishEvaluation) :
    (applyCp line r).bestMove = r.bestMove ∧
    (applyCp line r).principalVariation = r.principalVariation ∧
    (applyCp line r).depth = r.depth ∧
    (applyCp line r).nodes = r.nodes ∧
    (applyCp line r).time = r.time ∧
    (applyCp line r).nps = r.nps ∧
    (applyCp line r).fen = r.fen := by
  unfold applyCp
  split
  · cases matchInt "score cp " line <;> simp
  · simp

/-- The mate stanza touches only `evaluation`. -/
lemma applyMate_frame (line : String) (r : StockfishEvaluation) :
    (applyMate line r).bestMove = r.bestMove ∧
    (applyMate line r).principalVariation = r.principalVariation ∧
    (applyMate line r).depth = r.depth ∧
    (applyMate line r).nodes = r.nodes ∧
    (applyMate line r).time = r.time ∧
    (applyMate line r).nps = r.nps ∧
    (applyMate line r).fen = r.fen := by
  unfold applyMate
  split
  · cases matchSignedCap "score mate " line <;> simp
  · simp

/-- The principal-variation stanza touches only `principalVariation`. -/
lemma applyPv_frame (line : String) (r : StockfishEvaluation) :
    (applyPv line r).evaluation = r.evaluation ∧
    (applyPv line r).bestMove = r.bestMove ∧
    (applyPv line r).depth = r.depth ∧
    (applyPv line r).nodes = r.nodes ∧
    (applyPv line r).time = r.time ∧
    (applyPv line r).nps = r.nps ∧
    (applyPv line r).fen = r.fen := by
  unfold applyPv
  split
  · cases matchRest "pv " line <;> simp
  · simp

/-- The depth field after a full parse is the parsed depth when the depth
regex matched, and untouched otherwise. -/
lemma parseInfoLine_depth (line : String) (r : StockfishEvaluation) :
    (parseInfoLine line r).depth = (matchNum "depth " line).getD r.depth := by
  unfold parseInfoLine
  rw [(applyPv_frame line _).2.2.1, (applyMate_frame line _).2.2.1,
    (applyCp_frame line _).2.2.1, applyTime_eq, applyNodes_eq, applyDepth_eq]

/-- The nodes field after a full parse. -/
lemma parseInfoLine_nodes (line : String) (r : StockfishEvaluation) :
    (parseInfoLine line r).nodes = (matchNum "nodes " line).getD r.nodes := by
  unfold parseInfoLine
  rw [(applyPv_frame line _).2.2.2.1, (applyMate_frame line _).2.2.2.1,
    (applyCp_frame line _).2.2.2.1, applyTime_eq, applyNodes_eq, applyDepth_eq]

/-- The time field after a full parse. -/
lemma parseInfoLine_time (line : String) (r : StockfishEvaluation) :
    (parseInfoLine line r).time = (matchNum "time " line).getD r.time := by
  unfold parseInfoLine
  rw [(applyPv_frame line _).2.2.2.2.1, (applyMate_frame line _).2.2.2.2.1,
    (applyCp_frame line _).2.2.2.2.1, applyTime_eq, applyNodes_eq, applyDepth_eq]

/-- Parsing never changes `bestMove`. -/
lemma parseInfoLine_bestMove (line : String) (r : StockfishEvaluation) :
    (parseInfoLine line r).bestMove = r.bestMove := by
  unfold parseInfoLine
  rw [(applyPv_frame line _).2.1, (applyMate_frame line _).1, (applyCp_frame line _).1,
    applyTime_eq, applyNodes_eq, applyDepth_eq]

/-- Parsing never changes `nps`. -/
lemma parseInfoLine_nps (line : String) (r : StockfishEvaluation) :
    (parseInfoLine line r).nps = r.nps := by
  unfold parseInfoLine
  rw [(applyPv_frame line _).2.2.2.2.2.1, (applyMate_frame line _).2.2.2.2.2.1,
    (applyCp_frame line _).2.2.2.2.2.1, applyTime_eq, applyNodes_eq, applyDepth_eq]

/-- Parsing never changes `fen`. -/
lemma parseInfoLine_fen (line : String) (r : StockfishEvaluation) :
    (parseInfoLine line r).fen = r.fen := by
  unfold parseInfoLine
  rw [(applyPv_frame line _).2.2.2.2.2.2, (applyMate_frame line _).2.2.2.2.2.2,
    (applyCp_frame line _).2.2.2.2.2.2, applyTime_eq, applyNodes_eq, applyDepth_eq]

/-- The centipawn stanza when its regex matched: `evaluation` becomes the
captured value, negated when the side to move in `fen` is Black, divided by
one hundred. -/
lemma applyCp_eval_of_match (line : String) (r : StockfishEvaluation) (x : Int)
    (hinc : hasSubStr line "score cp" = true)
    (hm : matchInt "score cp " line = some x) :
    (applyCp line r).evaluation =
      .num (((if r.fen ≠ "" then
          if (splitSpaceStr r.fen)[1]? = some "b" then -x else x
        else x : Int) : ℚ) / 100) := by
  unfold applyCp
  rw [hinc, hm]
  simp

/-- The centipawn stanza when its guard or regex failed: `evaluation` is
untouched. -/
lemma applyCp_eval_nop (line : String) (r : StockfishEvaluation)
    (h : (hasSubStr line "score cp" && (matchInt "score cp " line).isSome) = false) :
    (applyCp line r).evaluation = r.evaluation := by
  unfold applyCp
  rcases Bool.and_eq_false_iff.mp h with h' | h'
  · rw [h']
    simp
  · split
    · cases hmk : matchInt "score cp " line
      · rfl
      · rw [hmk] at h'
        simp at h'
    · rfl

/-- The mate stanza when its regex matched. -/
lemma applyMate_eval_of_match (line : String) (r : StockfishEvaluation) (cap : String)
    (hinc : hasSubStr line "score mate" = true)
    (hm : matchSignedCap "score mate " line = some cap) :
    (applyMate line r).evaluation = .mate ("M" ++ cap) := by
  unfold applyMate
  rw [hinc, hm]
  simp

/-- The mate stanza when its guard or regex failed: `evaluation` is
untouched. -/
lemma applyMate_eval_nop (line : String) (r : StockfishEvaluation)
    (h : (hasSubStr line "score mate" && (matchSignedCap "score mate " line).isSome) = false) :
    (applyMate line r).evaluation = r.evaluation := by
  unfold applyMate
  rcases Bool.and_eq_false_iff.mp h with h' | h'
  · rw [h']
    simp
  · split
    · cases hmk : matchSignedCap "score mate " line
      · rfl
      · rw [hmk] at h'
        simp at h'
    · rfl

/-- The pv stanza when its regex matched: `principalVariation` becomes the
space-split tokens of the capture, truncated to the first six. -/
lemma applyPv_pv_of_match (line : String) (r : StockfishEvaluation) (rest : String)
    (hinc : hasSubStr line "pv " = true)
    (hm : matchRest "pv " line = some rest) :
    (applyPv line r).principalVariation = (splitSpaceStr rest).take 6 := by
  unfold applyPv
  rw [hinc, hm]
  simp

/-- The pv stanza when its guard or regex failed: `principalVariation` is
untouched. -/
lemma applyPv_pv_nop (line : String) (r : StockfishEvaluation)
    (h : (hasSubStr line "pv " && (matchRest "pv " line).isSome) = false) :
    (applyPv line r).principalVariation = r.principalVariation := by
  unfold applyPv
  rcases Bool.and_eq_false_iff.mp h with h' | h'
  · rw [h']
    simp
  · split
    · cases hmk : matchRest "pv " line
      · rfl
      · rw [hmk] at h'
        simp at h'
    · rfl

/-- The first three stanzas never change `evaluation`, `principalVariation`
or `fen`. -/
lemma applyNumeric_frame (line : String) (r : StockfishEvaluation) :
    (applyTime line (applyNodes line (applyDepth line r))).evaluation = r.evaluation ∧
    (applyTime line (applyNodes line (applyDepth line r))).principalVariation
      = r.principalVariation ∧
    (applyTime line (applyNodes line (applyDepth line r))).fen = r.fen := by
  rw [applyTime_eq, applyNodes_eq, applyDepth_eq]
  simp

/-- The principal variation after a full parse: overwritten from the line
alone when the pv regex matched, untouched otherwise. -/
lemma parseInfoLine_pv (line : String) (r : StockfishEvaluation) :
    ((hasSubStr line "pv " = true) → ∀ rest, matchRest "pv " line = some rest →
      (parseInfoLine line r).principalVariation = (splitSpaceStr rest).take 6) ∧
    ((hasSubStr line "pv " && (matchRest "pv " line).isSome) = false →
      (parseInfoLine line r).principalVariation = r.principalVariation) := by
  unfold parseInfoLine
  constructor
  · intro hinc rest hm
    exact applyPv_pv_of_match line _ rest hinc hm
  · intro h
    rw [applyPv_pv_nop line _ h, (applyMate_frame line _).2.1, (applyCp_frame line _).2.1,
      (applyNumeric_frame line r).2.1]

/-- Splitting never produces the empty list of parts. -/
lemma splitNl_ne_nil (l : List Char) : splitNl l ≠ [] := by
  cases l with
  | nil => simp [splitNl]
  | cons c cs =>
    unfold splitNl
    split
    · simp
    · cases splitNl cs <;> simp

/-- Prepend a carried fragment onto the first part of a split. -/
def glueHead (p : List Char) : List (List Char) → List (List Char)
  | [] => [p]
  | l :: ls => (p ++ l) :: ls

/-- Join two part lists at the seam: the last part of the first run of text
continues into the first part of the second. -/
def glueLast : List (List Char) → List (List Char) → List (List Char)
  | [], S => S
  | [p], S => glueHead p S
  | p :: q :: R, S => p :: glueLast (q :: R) S

/-- Gluing onto a nonempty split with the empty fragment changes nothing. -/
lemma glueHead_nil_left (S : List (List Char)) (h : S ≠ []) : glueHead [] S = S := by
  cases S with
  | nil => exact absurd rfl h
  | cons l ls => simp [glueHead]

/-- Gluing never produces the empty list of parts. -/
lemma glueHead_ne_nil (p : List Char) (S : List (List Char)) : glueHead p S ≠ [] := by
  cases S <;> simp [glueHead]

/-- Unfolding: a leading newline opens a fresh empty part. -/
lemma splitNl_cons_nl (cs : List Char) : splitNl ('\n' :: cs) = [] :: splitNl cs := by
  simp [splitNl]

/-- Unfolding: any other leading character extends the first part. -/
lemma splitNl_cons_other (c : Char) (cs : List Char) (hc : c ≠ '\n')
    (q : List Char) (R : List (List Char)) (hq : splitNl cs = q :: R) :
    splitNl (c :: cs) = (c :: q) :: R := by
  simp [splitNl, hc, hq]

/-- How `split('\n')` distributes over concatenation: all parts of the left
text except its trailing fragment, then the right text's parts with the
trailing fragment glued onto the first. -/
lemma splitNl_append (xs ys : List Char) :
    splitNl (xs ++ ys) = glueLast (splitNl xs) (splitNl ys) := by
  induction xs with
  | nil =>
    simp only [List.nil_append, splitNl, glueLast]
    exact (glueHead_nil_left _ (splitNl_ne_nil ys)).symm
  | cons c cs ih =>
    cases hq : splitNl cs with
    | nil => exact absurd hq (splitNl_ne_nil cs)
    | cons q R =>
      by_cases hc : c = '\n'
      · subst hc
        rw [List.cons_append, splitNl_cons_nl, splitNl_cons_nl, ih, hq]
        simp [glueLast]
      · cases hw : splitNl (cs ++ ys) with
        | nil => exact absurd hw (splitNl_ne_nil _)
        | cons w W =>
          have ihw : w :: W = glueLast (q :: R) (splitNl ys) := by
            rw [← hw, ih, hq]
          rw [List.cons_append, splitNl_cons_other c _ hc w W hw,
            splitNl_cons_other c cs hc q R hq]
          cases R with
          | nil =>
            cases hS : splitNl ys with
            | nil => exact absurd hS (splitNl_ne_nil ys)
            | cons s S2 =>
              rw [hS] at ihw
              simp only [glueLast, glueHead] at ihw ⊢
              obtain ⟨hw1, hw2⟩ := List.cons.inj ihw
              rw [hw1, hw2]
              simp
          | cons r R2 =>
            simp only [glueLast] at ihw ⊢
            obtain ⟨hw1, hw2⟩ := List.cons.inj ihw
            rw [hw1, hw2]

/-- No part produced by `split('\n')` contains a newline. -/
lemma splitNl_no_nl : ∀ (l : List Char), ∀ p ∈ splitNl l, '\n' ∉ p := by
  intro l
  induction l with
  | nil =>
    intro p hp
    simp [splitNl] at hp
    simp [hp]
  | cons c cs ih =>
    intro p hp
    by_cases hc : c = '\n'
    · subst hc
      rw [splitNl_cons_nl] at hp
      rcases List.mem_cons.mp hp with rfl | hp'
      · simp
      · exact ih p hp'
    · cases hq : splitNl cs with
      | nil => exact absurd hq (splitNl_ne_nil cs)
      | cons q R =>
        rw [splitNl_cons_other c cs hc q R hq] at hp
        rcases List.mem_cons.mp hp with rfl | hp'
        · intro hmem
          rcases List.mem_cons.mp hmem with h' | h'
          · exact hc h'.symm
          · exact ih q (by rw [hq]; exact List.mem_cons_self q R) h'
        · exact ih p (by rw [hq]; exact List.mem_cons_of_mem q hp')

/-- A newline-free text splits into exactly one part, itself. -/
lemma splitNl_single (l : List Char) (h : '\n' ∉ l) : splitNl l = [l] := by
  induction l with
  | nil => simp [splitNl]
  | cons c cs ih =>
    have hc : c ≠ '\n' := fun hc => h (hc ▸ List.mem_cons_self c cs)
    have hcs : '\n' ∉ cs := fun hm => h (List.mem_cons_of_mem c hm)
    simp only [splitNl, if_neg hc, ih hcs]

/-- Unfolded form of `glueLast` on a nonempty left argument. -/
lemma glueLast_eq (A S : List (List Char)) (h : A ≠ []) :
    glueLast A S = A.dropLast ++ glueHead (A.getLastD []) S := by
  induction A with
  | nil => exact absurd rfl h
  | cons p A' ih =>
    cases A' with
    | nil => simp [glueLast, glueHead]
    | cons q R =>
      simp only [glueLast, ih (by simp), List.dropLast_cons₂, List.cons_append,
        List.getLastD_cons]

/-- The last part of a concatenation is the last part of its nonempty right
half. -/
lemma getLastD_append_right {α : Type} (X Y : List α) (d : α) (h : Y ≠ []) :
    (X ++ Y).getLastD d = Y.getLastD d := by
  rw [List.getLastD_eq_getLast?, List.getLastD_eq_getLast?, List.getLast?_append,
    Option.or_of_isSome (List.getLast?_isSome.mpr h)]

/-- Appending strings appends their character lists. -/
lemma strToList_append (a b : String) : (a ++ b).toList = a.toList ++ b.toList :=
  String.data_append a b

/-- The reassembler fold computes exactly the `split('\n')` decomposition of
the whole concatenated stream: every complete line once, in order, and the
trailing unterminated fragment in the carry buffer. -/
lemma feedChunks_spec (chunks : List String) :
    ∀ buf : String, '\n' ∉ buf.toList →
    feedChunks buf chunks
      = ((jsSplitNl (buf ++ concatChunks chunks)).dropLast,
         (jsSplitNl (buf ++ concatChunks chunks)).getLastD "") := by
  induction chunks with
  | nil =>
    intro buf hbuf
    have hc : concatChunks [] = "" := rfl
    rw [hc, String.append_empty]
    have h1 : jsSplitNl buf = [buf] := by
      unfold jsSplitNl
      rw [splitNl_single buf.toList hbuf]
      rfl
    rw [h1]
    rfl
  | cons ch rest ih =>
    intro buf hbuf
    have hbuf' : '\n' ∉ (splitNl (buf ++ ch).toList).getLastD [] := by
      have hmem := List.getLastD_mem_cons (splitNl (buf ++ ch).toList) ([] : List Char)
      rcases List.mem_cons.mp hmem with hnil | hm
      · rw [hnil]
        simp
      · exact splitNl_no_nl _ _ hm
    have hlastStr : (jsSplitNl (buf ++ ch)).getLastD ""
        = String.mk ((splitNl (buf ++ ch).toList).getLastD []) := by
      unfold jsSplitNl
      exact List.getLastD_map (fun l => String.mk l) (splitNl (buf ++ ch).toList) []
    have hbufStr' : '\n' ∉ ((jsSplitNl (buf ++ ch)).getLastD "").toList := by
      rw [hlastStr]
      exact hbuf'
    have hstep : feedChunks buf (ch :: rest)
        = ((jsSplitNl (buf ++ ch)).dropLast
            ++ (jsSplitNl ((jsSplitNl (buf ++ ch)).getLastD "" ++ concatChunks rest)).dropLast,
           (jsSplitNl ((jsSplitNl (buf ++ ch)).getLastD "" ++ concatChunks rest)).getLastD "") := by
      show ((jsSplitNl (buf ++ ch)).dropLast
              ++ (feedChunks ((jsSplitNl (buf ++ ch)).getLastD "") rest).1,
            (feedChunks ((jsSplitNl (buf ++ ch)).getLastD "") rest).2) = _
      rw [ih _ hbufStr']
    have hG2 : jsSplitNl ((jsSplitNl (buf ++ ch)).getLastD "" ++ concatChunks rest)
        = (glueHead ((splitNl (buf ++ ch).toList).getLastD [])
            (splitNl (concatChunks rest).toList)).map (fun l => String.mk l) := by
      rw [hlastStr]
      unfold jsSplitNl
      rw [strToList_append]
      have h1 : (String.mk ((splitNl (buf ++ ch).toList).getLastD [])).toList
          = (splitNl (buf ++ ch).toList).getLastD [] := rfl
      rw [h1, splitNl_append, splitNl_single _ hbuf']
      rfl
    have hTot : jsSplitNl (buf ++ concatChunks (ch :: rest))
        = (jsSplitNl (buf ++ ch)).dropLast
          ++ (glueHead ((splitNl (buf ++ ch).toList).getLastD [])
              (splitNl (concatChunks rest).toList)).map (fun l => String.mk l) := by
      have hassoc : buf ++ concatChunks (ch :: rest) = (buf ++ ch) ++ concatChunks rest := by
        show buf ++ (ch ++ concatChunks rest) = (buf ++ ch) ++ concatChunks rest
        rw [String.append_assoc]
      rw [hassoc]
      unfold jsSplitNl
      rw [strToList_append, splitNl_append, glueLast_eq _ _ (splitNl_ne_nil _),
        List.map_append, List.map_dropLast]
    have hmapGne : (glueHead ((splitNl (buf ++ ch).toList).getLastD [])
        (splitNl (concatChunks rest).toList)).map (fun l => String.mk l) ≠ [] := by
      intro hcontra
      exact glueHead_ne_nil _ _ (List.map_eq_nil_iff.mp hcontra)
    rw [hstep, hTot, hG2, List.dropLast_append_of_ne_nil _ hmapGne,
      getLastD_append_right _ _ _ hmapGne]

/-- Every snapshot of a list is an intermediate one. -/
def allInfo (l : List Snapshot) : Bool := l.all isInfoB

/-- An intermediate snapshot is neither terminal nor an error. -/
lemma isInfoB_excl (x : Snapshot) (h : isInfoB x = true) :
    isDoneB x = false ∧ isErrB x = false := by
  cases x <;> simp_all [isInfoB, isDoneB, isErrB]

/-- Delivery invariant of a session: while the stream controller is open,
everything delivered so far is an intermediate snapshot; once it is closed,
the delivered sequence is a run of intermediate snapshots ended by a single
non-intermediate (terminal or error) record, and a delivered terminal record
implies the engine was killed. -/
def SessInv (s : SessionState) : Prop :=
  (s.closed = false ∧ allInfo s.emitted = true) ∨
  (s.closed = true ∧ ∃ pre t, s.emitted = pre ++ [t] ∧ allInfo pre = true ∧
    isInfoB t = false ∧ (isDoneB t = true → s.killed = true))

/-- The invariant holds at session start. -/
lemma sessInv_init (fen : String) : SessInv (initSession fen) := by
  left
  exact ⟨rfl, rfl⟩

/-- A closed controller accepts nothing. -/
lemma emit_closed (s : SessionState) (x : Snapshot) (h : s.closed = true) :
    emit s x = s := by
  unfold emit
  rw [h]
  rfl

/-- An open controller appends the record. -/
lemma emit_open (s : SessionState) (x : Snapshot) (h : s.closed = false) :
    emit s x = { s with emitted := s.emitted ++ [x] } := by
  unfold emit
  rw [h]
  rfl

/-- Emitting preserves every state field except `emitted`. -/
lemma emit_fields (s : SessionState) (x : Snapshot) :
    (emit s x).closed = s.closed ∧ (emit s x).killed = s.killed ∧
    (emit s x).finished = s.finished ∧ (emit s x).result = s.result ∧
    (emit s x).lastDepth = s.lastDepth ∧ (emit s x).output = s.output := by
  unfold emit
  split <;> simp

/-- Emitting an intermediate snapshot preserves the invariant. -/
lemma sessInv_emit_info (s : SessionState) (r : StockfishEvaluation)
    (h : SessInv s) : SessInv (emit s (.info r)) := by
  rcases h with ⟨hc, hall⟩ | ⟨hc, pre, t, hemit, hpre, ht, hk⟩
  · left
    rw [emit_open s _ hc]
    refine ⟨hc, ?_⟩
    simp only [allInfo, List.all_append] at hall ⊢
    simp [hall, isInfoB]
  · right
    rw [emit_closed s _ hc]
    exact ⟨hc, pre, t, hemit, hpre, ht, hk⟩

/-- The invariant only depends on the controller flag, the delivered records
and the kill flag. -/
lemma sessInv_of_fields (s s' : SessionState) (h : SessInv s)
    (hc : s'.closed = s.closed) (he : s'.emitted = s.emitted)
    (hk : s'.killed = s.killed) : SessInv s' := by
  unfold SessInv at h ⊢
  rw [hc, he, hk]
  exact h

/-- Killing the engine preserves the invariant. -/
lemma sessInv_kill (s : SessionState) (h : SessInv s) :
    SessInv { s with killed := true } := by
  rcases h with ⟨hc, hall⟩ | ⟨hc, pre, t, hemit, hpre, ht, _⟩
  · left
    exact ⟨hc, hall⟩
  · right
    exact ⟨hc, pre, t, hemit, hpre, ht, fun _ => rfl⟩

/-- Emitting an error record and closing the controller preserves the
invariant. -/
lemma sessInv_error_close (s : SessionState) (msg : String) (h : SessInv s) :
    SessInv { emit s (.error msg) with closed := true } := by
  rcases h with ⟨hc, hall⟩ | ⟨hc, pre, t, hemit, hpre, ht, hk⟩
  · right
    rw [emit_open s _ hc]
    refine ⟨rfl, s.emitted, .error msg, by simp, hall, rfl, ?_⟩
    intro hd
    simp [isDoneB] at hd
  · right
    rw [emit_closed s _ hc]
    exact ⟨rfl, pre, t, hemit, hpre, ht, hk⟩

/-- Emitting the terminal record, closing the controller and killing the
engine — the `bestmove` epilogue — preserves the invariant. -/
lemma sessInv_done_close (s : SessionState) (r r' : StockfishEvaluation) (h : SessInv s) :
    SessInv { emit { s with result := r', finished := true } (.done r) with
      closed := true, killed := true } := by
  have h2 : SessInv { s with result := r', finished := true } :=
    sessInv_of_fields s _ h rfl rfl rfl
  rcases h2 with ⟨hc, hall⟩ | ⟨_, pre, t, hemit, hpre, ht, _⟩
  · right
    rw [emit_open _ _ hc]
    exact ⟨rfl, s.emitted, .done r, by simp, hall, rfl, fun _ => rfl⟩
  · right
    rw [emit_closed]
    · exact ⟨rfl, pre, t, hemit, hpre, ht, fun _ => rfl⟩
    · assumption

/-- Processing one line preserves the invariant. -/
lemma sessInv_infoBranch (s : SessionState) (line : String) (h : SessInv s) :
    SessInv (infoBranch s line) := by
  unfold infoBranch
  split
  · split
    · exact sessInv_emit_info _ _ (sessInv_of_fields s _ h rfl rfl rfl)
    · exact sessInv_of_fields s _ h rfl rfl rfl
  · exact h

lemma sessInv_processLine (s : SessionState) (line : String) (h : SessInv s) :
    SessInv (processLine s line).1 := by
  unfold processLine
  split
  · exact sessInv_done_close _ _ _ (sessInv_infoBranch s line h)
  · exact sessInv_infoBranch s line h

/-- The per-chunk line loop preserves the invariant. -/
lemma sessInv_processLines (lines : List String) :
    ∀ s : SessionState, SessInv s → SessInv (processLines s lines) := by
  induction lines with
  | nil =>
    intro s h
    exact h
  | cons line rest ih =>
    intro s h
    unfold processLines
    cases hpl : processLine s line with
    | mk s' halted =>
      have h' : SessInv s' := by
        have := sessInv_processLine s line h
        rw [hpl] at this
        exact this
      cases halted
      · exact ih s' h'
      · exact h'

/-- Every event handler preserves the invariant. -/
lemma sessInv_step (s : SessionState) (e : Event) (h : SessInv s) :
    SessInv (stepSession s e) := by
  cases e with
  | data chunk =>
    unfold stepSession handleData
    exact sessInv_processLines _ _ (sessInv_of_fields s _ h rfl rfl rfl)
  | procError msg =>
    exact sessInv_error_close s _ h
  | procClose code =>
    unfold stepSession
    cases code with
    | none => exact h
    | some c =>
      dsimp only
      split
      · exact sessInv_error_close s _ h
      · exact h
  | timerFire =>
    unfold stepSession
    dsimp only
    split
    · exact sessInv_error_close { s with killed := true } _ (sessInv_kill s h)
    · exact h

/-- The invariant holds after any run. -/
lemma sessInv_runFrom (evs : List Event) :
    ∀ s : SessionState, SessInv s → SessInv (runFrom s evs) := by
  induction evs with
  | nil =>
    intro s h
    exact h
  | cons e rest ih =>
    intro s h
    exact ih _ (sessInv_step s e h)

/-- The invariant holds for every session run. -/
lemma sessInv_runSession (fen : String) (evs : List Event) :
    SessInv (runSession fen evs) :=
  sessInv_runFrom evs _ (sessInv_init fen)

/-- What the delivery invariant gives about the delivered sequence: all
records but the last are intermediate, terminal and error records each occur
at most once, and a delivered terminal record means the session is closed
with the engine killed. -/
lemma sessInv_consequences (s : SessionState) (h : SessInv s) :
    s.emitted.dropLast.all isInfoB = true ∧
    s.emitted.countP isDoneB ≤ 1 ∧
    s.emitted.countP isErrB ≤ 1 ∧
    (s.emitted.any isDoneB = true → s.killed = true ∧ s.closed = true) := by
  rcases h with ⟨hc, hall⟩ | ⟨hc, pre, t, hemit, hpre, ht, hk⟩
  · have hmem := List.all_eq_true.mp hall
    refine ⟨?_, ?_, ?_, ?_⟩
    · exact List.all_eq_true.mpr fun x hx => hmem x (List.dropLast_subset _ hx)
    · have : s.emitted.countP isDoneB = 0 :=
        List.countP_eq_zero.mpr fun a ha => by
          rw [(isInfoB_excl a (hmem a ha)).1]
          exact Bool.false_ne_true
      omega
    · have : s.emitted.countP isErrB = 0 :=
        List.countP_eq_zero.mpr fun a ha => by
          rw [(isInfoB_excl a (hmem a ha)).2]
          exact Bool.false_ne_true
      omega
    · intro hany
      obtain ⟨x, hx, hdx⟩ := List.any_eq_true.mp hany
      rw [(isInfoB_excl x (hmem x hx)).1] at hdx
      exact absurd hdx Bool.false_ne_true
  · have hmem := List.all_eq_true.mp hpre
    have hpre_done : pre.countP isDoneB = 0 :=
      List.countP_eq_zero.mpr fun a ha => by
        rw [(isInfoB_excl a (hmem a ha)).1]
        exact Bool.false_ne_true
    have hpre_err : pre.countP isErrB = 0 :=
      List.countP_eq_zero.mpr fun a ha => by
        rw [(isInfoB_excl a (hmem a ha)).2]
        exact Bool.false_ne_true
    refine ⟨?_, ?_, ?_, ?_⟩
    · rw [hemit, List.dropLast_concat]
      exact hpre
    · rw [hemit, List.countP_append, hpre_done]
      have : List.countP isDoneB [t] ≤ 1 := by
        simp [List.countP_cons]
        split <;> omega
      omega
    · rw [hemit, List.countP_append, hpre_err]
      have : List.countP isErrB [t] ≤ 1 := by
        simp [List.countP_cons]
        split <;> omega
      omega
    · intro hany
      rw [hemit, List.any_append] at hany
      rcases Bool.or_eq_true_iff.mp hany with h1 | h1
      · obtain ⟨x, hx, hdx⟩ := List.any_eq_true.mp h1
        rw [(isInfoB_excl x (hmem x hx)).1] at hdx
        exact absurd hdx Bool.false_ne_true
      · have hdt : isDoneB t = true := by
          simpa using h1
        exact ⟨hk hdt, hc⟩


/-- Emitting on a closed controller delivers nothing. -/
lemma emit_emitted_closed (s : SessionState) (x : Snapshot) (h : s.closed = true) :
    (emit s x).emitted = s.emitted := by
  rw [emit_closed s x h]

/-- The info branch never closes the stream, never kills the engine, never
finishes the session; on a closed controller it also delivers nothing. -/
lemma infoBranch_fields (s : SessionState) (line : String) :
    (infoBranch s line).closed = s.closed ∧ (infoBranch s line).killed = s.killed ∧
    (infoBranch s line).finished = s.finished ∧
    (s.closed = true → (infoBranch s line).emitted = s.emitted) := by
  unfold infoBranch
  split
  · split
    · refine ⟨(emit_fields _ _).1, (emit_fields _ _).2.1, (emit_fields _ _).2.2.1, ?_⟩
      intro hc
      exact emit_emitted_closed
        { s with result := parseInfoLine line s.result,
                 lastDepth := (parseInfoLine line s.result).depth } _ hc
    · exact ⟨rfl, rfl, rfl, fun _ => rfl⟩
  · exact ⟨rfl, rfl, rfl, fun _ => rfl⟩

/-- Line processing on a closed controller delivers nothing, cannot reopen
the stream, and cannot unkill the engine. -/
lemma processLine_closed (s : SessionState) (line : String) (h : s.closed = true) :
    (processLine s line).1.emitted = s.emitted ∧ (processLine s line).1.closed = true ∧
    (s.killed = true → (processLine s line).1.killed = true) := by
  have hib := infoBranch_fields s line
  have hibc : (infoBranch s line).closed = true := by rw [hib.1]; exact h
  unfold processLine
  split
  · dsimp only
    refine ⟨?_, rfl, fun _ => rfl⟩
    rw [emit_emitted_closed
      { infoBranch s line with
        result := bestmoveResult (infoBranch s line).result line, finished := true } _ hibc]
    exact hib.2.2.2 h
  · exact ⟨hib.2.2.2 h, hibc, fun hk => by rw [hib.2.1]; exact hk⟩

/-- Killing is permanent across line processing. -/
lemma processLine_killed (s : SessionState) (line : String) (h : s.killed = true) :
    (processLine s line).1.killed = true := by
  have hib := infoBranch_fields s line
  unfold processLine
  split
  · rfl
  · rw [hib.2.1]
    exact h

/-- The line loop on a closed controller delivers nothing and keeps the
stream closed and the kill flag set. -/
lemma processLines_closed (lines : List String) :
    ∀ s : SessionState, s.closed = true →
    (processLines s lines).emitted = s.emitted ∧ (processLines s lines).closed = true ∧
    (s.killed = true → (processLines s lines).killed = true) := by
  induction lines with
  | nil => exact fun s h => ⟨rfl, h, fun hk => hk⟩
  | cons line rest ih =>
    intro s h
    unfold processLines
    cases hpl : processLine s line with
    | mk s' halted =>
      have hcl := processLine_closed s line h
      rw [hpl] at hcl
      cases halted
      · obtain ⟨he, hc, hk⟩ := ih s' hcl.2.1
        exact ⟨he.trans hcl.1, hc, fun hks => hk (hcl.2.2 hks)⟩
      · exact hcl

/-- Killing is permanent across the line loop. -/
lemma processLines_killed (lines : List String) :
    ∀ s : SessionState, s.killed = true → (processLines s lines).killed = true := by
  induction lines with
  | nil => exact fun _ h => h
  | cons line rest ih =>
    intro s h
    unfold processLines
    cases hpl : processLine s line with
    | mk s' halted =>
      have hk := processLine_killed s line h
      rw [hpl] at hk
      cases halted
      · exact ih s' hk
      · exact hk

/-- Any event on a closed controller delivers nothing, keeps the stream
closed, and keeps the kill flag. -/
lemma stepSession_closed (s : SessionState) (e : Event) (h : s.closed = true) :
    (stepSession s e).emitted = s.emitted ∧ (stepSession s e).closed = true ∧
    (s.killed = true → (stepSession s e).killed = true) := by
  cases e with
  | data chunk =>
    unfold stepSession handleData
    exact processLines_closed _ _ h
  | procError msg =>
    unfold stepSession
    dsimp only
    refine ⟨?_, rfl, fun hk => ?_⟩
    · exact emit_emitted_closed s _ h
    · rw [(emit_fields s _).2.1]
      exact hk
  | procClose code =>
    unfold stepSession
    cases code with
    | none => exact ⟨rfl, h, fun hk => hk⟩
    | some c =>
      dsimp only
      split
      · refine ⟨?_, rfl, fun hk => ?_⟩
        · exact emit_emitted_closed s _ h
        · rw [(emit_fields s _).2.1]
          exact hk
      · exact ⟨rfl, h, fun hk => hk⟩
  | timerFire =>
    unfold stepSession
    dsimp only
    split
    · refine ⟨?_, rfl, fun _ => ?_⟩
      · exact emit_emitted_closed { s with killed := true } _ h
      · rw [(emit_fields { s with killed := true } _).2.1]
    · exact ⟨rfl, h, fun hk => hk⟩

/-- After the controller closes, the rest of the run delivers nothing, the
stream stays closed, and the kill flag survives. -/
lemma runFrom_closed (evs : List Event) :
    ∀ s : SessionState, s.closed = true →
    (runFrom s evs).emitted = s.emitted ∧ (runFrom s evs).closed = true ∧
    (s.killed = true → (runFrom s evs).killed = true) := by
  induction evs with
  | nil => exact fun s h => ⟨rfl, h, fun hk => hk⟩
  | cons e rest ih =>
    intro s h
    have hst := stepSession_closed s e h
    obtain ⟨he, hc, hk⟩ := ih (stepSession s e) hst.2.1
    exact ⟨he.trans hst.1, hc, fun hks => hk (hst.2.2 hks)⟩

/-- C1: for every session and every sequence of engine events, at most one
terminal event is delivered: every delivered record except possibly the last
is an intermediate snapshot (so the terminal record, when present, is final),
the terminal snapshot is delivered at most once, an error snapshot is
delivered at most once, and a session that delivered its terminal snapshot
has closed the channel and killed the engine. -/
theorem session_at_most_one_terminal (fen : String) (evs : List Event) :
    (runSession fen evs).emitted.dropLast.all isInfoB = true ∧
    (runSession fen evs).emitted.countP isDoneB ≤ 1 ∧
    (runSession fen evs).emitted.countP isErrB ≤ 1 ∧
    ((runSession fen evs).emitted.any isDoneB = true →
      (runSession fen evs).killed = true ∧ (runSession fen evs).closed = true) :=
  sessInv_consequences _ (sessInv_runSession fen evs)

/-- Witness for C1 at a concrete session: an info line, a terminal line and a
late timer event. -/
theorem session_at_most_one_terminal_witness :
    (runSession "f" [.data "info depth 2 \nbestmove e2e4\n", .timerFire]).emitted.dropLast.all
        isInfoB = true ∧
    (runSession "f" [.data "info depth 2 \nbestmove e2e4\n", .timerFire]).killed = true ∧
    (runSession "f" [.data "info depth 2 \nbestmove e2e4\n", .timerFire]).closed = true := by
  have h := session_at_most_one_terminal "f" [.data "info depth 2 \nbestmove e2e4\n", .timerFire]
  exact ⟨h.1, h.2.2.2 (by decide)⟩

/-- The timeout callback on a live, unfinished session: kill the engine,
deliver the timeout error, close the stream. -/
lemma stepSession_timer_open (s : SessionState) (hf : s.finished = false)
    (hc : s.closed = false) :
    (stepSession s .timerFire).emitted
      = s.emitted ++ [Snapshot.error "Stockfish evaluation timeout"] ∧
    (stepSession s .timerFire).closed = true ∧
    (stepSession s .timerFire).killed = true := by
  refine ⟨?_, ?_, ?_⟩ <;> simp [stepSession, hf, emit, hc]

/-- The timeout callback on a session that already finished does nothing:
the `if (!finished)` guard protects a done session from a late-firing
timer. -/
lemma stepSession_timer_finished (s : SessionState) (hf : s.finished = true) :
    stepSession s .timerFire = s := by
  unfold stepSession
  dsimp only
  rw [hf]
  rfl

/-- Splitting a run at any point. -/
lemma runSession_append (fen : String) (l1 l2 : List Event) :
    runSession fen (l1 ++ l2) = runFrom (runSession fen l1) l2 := by
  unfold runSession runFrom
  rw [List.foldl_append]

/-- C5: when the timer fires on a session that has not surfaced a `bestmove`
line (not finished) and whose channel produced no error (stream still open),
exactly one timeout error record is delivered, it follows only intermediate
snapshots, the engine is killed, and nothing further is ever delivered no
matter what events follow.  Conversely a session that already reached its
terminal snapshot is untouched by a late-firing timer. -/
theorem session_timeout_semantics (fen : String) (pre post : List Event) :
    ((runSession fen pre).finished = false → (runSession fen pre).closed = false →
      (runSession fen (pre ++ Event.timerFire :: post)).emitted
        = (runSession fen pre).emitted ++ [Snapshot.error "Stockfish evaluation timeout"] ∧
      (runSession fen (pre ++ Event.timerFire :: post)).killed = true ∧
      (runSession fen pre).emitted.all isInfoB = true) ∧
    ((runSession fen pre).finished = true →
      runSession fen (pre ++ Event.timerFire :: post) = runSession fen (pre ++ post)) := by
  constructor
  · intro hf hc
    have hrw : runSession fen (pre ++ Event.timerFire :: post)
        = runFrom (stepSession (runSession fen pre) .timerFire) post := by
      rw [runSession_append]
      rfl
    have ht := stepSession_timer_open (runSession fen pre) hf hc
    have hcl := runFrom_closed post (stepSession (runSession fen pre) .timerFire) ht.2.1
    refine ⟨?_, ?_, ?_⟩
    · rw [hrw, hcl.1, ht.1]
    · rw [hrw]
      exact hcl.2.2 ht.2.2
    · have hinv := sessInv_runSession fen pre
      rcases hinv with ⟨_, hall⟩ | ⟨hcc, _⟩
      · exact hall
      · rw [hcc] at hc
        exact absurd hc (by decide)
  · intro hf
    rw [runSession_append, runSession_append]
    show runFrom (stepSession (runSession fen pre) .timerFire) post = _
    rw [stepSession_timer_finished _ hf]

/-- Witness for C5: a timeout after one info line delivers exactly the
timeout error, and a timer firing after a done session changes nothing. -/
theorem session_timeout_semantics_witness :
    (runSession "f" ([Event.data "info depth 1 \n"] ++ Event.timerFire :: [])).emitted
      = (runSession "f" [Event.data "info depth 1 \n"]).emitted
        ++ [Snapshot.error "Stockfish evaluation timeout"] ∧
    runSession "f" ([Event.data "bestmove e2e4\n"] ++ Event.timerFire :: [])
      = runSession "f" ([Event.data "bestmove e2e4\n"] ++ []) := by
  constructor
  · exact ((session_timeout_semantics "f" [Event.data "info depth 1 \n"] []).1
      (by decide) (by decide)).1
  · exact (session_timeout_semantics "f" [Event.data "bestmove e2e4\n"] []).2 (by decide)

/-- C4: for every division of the engine output text into successive chunks,
the line reassembler yields exactly the newline-separated complete lines of
the concatenated stream, in order, with the trailing unterminated fragment
kept in the carry buffer rather than dropped; no yielded line contains an
embedded newline; and the three chunks of the specification's example yield
exactly its two lines. -/
theorem line_reassembler_correct :
    (∀ chunks : List String,
      reassemble chunks
        = ((jsSplitNl (concatChunks chunks)).dropLast,
           (jsSplitNl (concatChunks chunks)).getLastD "") ∧
      (reassemble chunks).1.all (fun l => decide ('\n' ∉ l.toList)) = true) ∧
    reassemble ["info dep", "th 5 nodes 10\nbestm", "ove e2e4\n"]
      = (["info depth 5 nodes 10", "bestmove e2e4"], "") := by
  constructor
  · intro chunks
    have hnil : '\n' ∉ ("" : String).toList := List.not_mem_nil _
    have hs := feedChunks_spec chunks "" hnil
    rw [String.empty_append] at hs
    refine ⟨hs, ?_⟩
    rw [show reassemble chunks = feedChunks "" chunks from rfl, hs]
    apply List.all_eq_true.mpr
    intro x hx
    have hx' : x ∈ jsSplitNl (concatChunks chunks) := List.dropLast_subset _ hx
    obtain ⟨l, hl, rfl⟩ := List.mem_map.mp hx'
    have hnn := splitNl_no_nl _ l hl
    simpa using hnn
  · decide

/-- Count of delivered intermediate snapshots. -/
def countInfo (l : List Snapshot) : Nat := l.countP isInfoB

/-- `infoDepths` distributes over append. -/
lemma infoDepths_append (l1 l2 : List Snapshot) :
    infoDepths (l1 ++ l2) = infoDepths l1 ++ infoDepths l2 :=
  List.filterMap_append l1 l2 _

/-- The bestmove-branch result mutations touch only `bestMove` and `nps`. -/
lemma bestmoveResult_frame (r : StockfishEvaluation) (line : String) :
    (bestmoveResult r line).depth = r.depth ∧
    (bestmoveResult r line).nodes = r.nodes ∧
    (bestmoveResult r line).time = r.time ∧
    (bestmoveResult r line).evaluation = r.evaluation ∧
    (bestmoveResult r line).principalVariation = r.principalVariation ∧
    (bestmoveResult r line).fen = r.fen := by
  unfold bestmoveResult
  cases matchWord "bestmove " line <;> dsimp only <;> split <;> simp

/-- Depth bookkeeping invariant: the delivered info depths form a strictly
increasing chain, all of them are bounded by `lastDepth`, and the running
result's depth never exceeds `lastDepth`. -/
def DepthInv (s : SessionState) : Prop :=
  List.Chain' (· < ·) (infoDepths s.emitted) ∧
  (∀ d ∈ infoDepths s.emitted, d ≤ s.lastDepth) ∧
  s.result.depth ≤ s.lastDepth

/-- The depth invariant holds at session start. -/
lemma depthInv_init (fen : String) : DepthInv (initSession fen) := by
  refine ⟨List.chain'_nil, ?_, Nat.le_refl 0⟩
  intro d hd
  simp [infoDepths, initSession] at hd

/-- The info branch preserves the depth invariant. -/
lemma depthInv_infoBranch (s : SessionState) (line : String) (h : DepthInv s) :
    DepthInv (infoBranch s line) := by
  obtain ⟨hchain, hbound, hres⟩ := h
  unfold infoBranch
  split
  · split
    · rename_i hlt
      have hlt' : s.lastDepth < (parseInfoLine line s.result).depth := of_decide_eq_true hlt
      unfold emit
      split
      · exact ⟨hchain,
          fun d hd => Nat.le_trans (hbound d hd) (Nat.le_of_lt hlt'), Nat.le_refl _⟩
      · dsimp only
        refine ⟨?_, ?_, Nat.le_refl _⟩
        · rw [infoDepths_append]
          rw [List.chain'_append]
          refine ⟨hchain, List.chain'_singleton _, ?_⟩
          intro x hx y hy
          have hx' : x ∈ infoDepths s.emitted := by
            rcases List.getLast?_eq_some_iff.mp hx with ⟨l', hl'⟩
            rw [hl']
            exact List.mem_append_right l' (List.mem_singleton.mpr rfl)
          have hy' : y = (parseInfoLine line s.result).depth := by
            simp [infoDepths] at hy
            omega
          rw [hy']
          exact Nat.lt_of_le_of_lt (hbound x hx') hlt'
        · intro d hd
          rw [infoDepths_append] at hd
          rcases List.mem_append.mp hd with hd' | hd'
          · exact Nat.le_trans (hbound d hd') (Nat.le_of_lt hlt')
          · simp [infoDepths] at hd'
            show d ≤ (parseInfoLine line s.result).depth
            omega
    · rename_i hnlt
      have hle : (parseInfoLine line s.result).depth ≤ s.lastDepth := by
        have := of_decide_eq_false (Bool.of_not_eq_true hnlt)
        omega
      exact ⟨hchain, hbound, hle⟩
  · exact ⟨hchain, hbound, hres⟩

/-- The depth invariant only depends on the delivered info depths, the last
emitted depth, and the running result's depth. -/
lemma depthInv_mk (s s' : SessionState) (h : DepthInv s)
    (he : infoDepths s'.emitted = infoDepths s.emitted)
    (hl : s'.lastDepth = s.lastDepth)
    (hr : s'.result.depth ≤ s'.lastDepth) : DepthInv s' := by
  obtain ⟨h1, h2, h3⟩ := h
  refine ⟨?_, ?_, hr⟩
  · rw [he]
    exact h1
  · intro d hd
    rw [he] at hd
    rw [hl]
    exact h2 d hd

/-- Appending a non-info record changes no info depths. -/
lemma infoDepths_append_done (l : List Snapshot) (r : StockfishEvaluation) :
    infoDepths (l ++ [Snapshot.done r]) = infoDepths l := by
  rw [infoDepths_append]
  simp [infoDepths]

/-- Appending an error record changes no info depths. -/
lemma infoDepths_append_error (l : List Snapshot) (msg : String) :
    infoDepths (l ++ [Snapshot.error msg]) = infoDepths l := by
  rw [infoDepths_append]
  simp [infoDepths]

/-- Line processing preserves the depth invariant. -/
lemma depthInv_processLine (s : SessionState) (line : String) (h : DepthInv s) :
    DepthInv (processLine s line).1 := by
  have hib := depthInv_infoBranch s line h
  unfold processLine
  split
  · dsimp only
    unfold emit
    split
    · refine depthInv_mk (infoBranch s line) _ hib rfl rfl ?_
      show (bestmoveResult (infoBranch s line).result line).depth
        ≤ (infoBranch s line).lastDepth
      rw [(bestmoveResult_frame _ _).1]
      exact hib.2.2
    · refine depthInv_mk (infoBranch s line) _ hib ?_ rfl ?_
      · show infoDepths ((infoBranch s line).emitted ++ [Snapshot.done _])
          = infoDepths (infoBranch s line).emitted
        exact infoDepths_append_done _ _
      · show (bestmoveResult (infoBranch s line).result line).depth
          ≤ (infoBranch s line).lastDepth
        rw [(bestmoveResult_frame _ _).1]
        exact hib.2.2
  · exact hib

/-- The line loop preserves the depth invariant. -/
lemma depthInv_processLines (lines : List String) :
    ∀ s : SessionState, DepthInv s → DepthInv (processLines s lines) := by
  induction lines with
  | nil => exact fun _ h => h
  | cons line rest ih =>
    intro s h
    unfold processLines
    cases hpl : processLine s line with
    | mk s' halted =>
      have h' : DepthInv s' := by
        have := depthInv_processLine s line h
        rw [hpl] at this
        exact this
      cases halted
      · exact ih s' h'
      · exact h'

/-- Every event handler preserves the depth invariant. -/
lemma depthInv_step (s : SessionState) (e : Event) (h : DepthInv s) :
    DepthInv (stepSession s e) := by
  cases e with
  | data chunk =>
    unfold stepSession handleData
    exact depthInv_processLines _ _ (depthInv_mk s _ h rfl rfl h.2.2)
  | procError msg =>
    unfold stepSession
    dsimp only
    unfold emit
    split
    · exact depthInv_mk s _ h rfl rfl h.2.2
    · exact depthInv_mk s _ h (infoDepths_append_error _ _) rfl h.2.2
  | procClose code =>
    unfold stepSession
    cases code with
    | none => exact h
    | some c =>
      dsimp only
      split
      · unfold emit
        split
        · exact depthInv_mk s _ h rfl rfl h.2.2
        · exact depthInv_mk s _ h (infoDepths_append_error _ _) rfl h.2.2
      · exact h
  | timerFire =>
    unfold stepSession
    dsimp only
    split
    · unfold emit
      split
      · exact depthInv_mk s _ h rfl rfl h.2.2
      · exact depthInv_mk s _ h (infoDepths_append_error _ _) rfl h.2.2
    · exact h

/-- The depth invariant holds after any run. -/
lemma depthInv_runFrom (evs : List Event) :
    ∀ s : SessionState, DepthInv s → DepthInv (runFrom s evs) := by
  induction evs with
  | nil => exact fun _ h => h
  | cons e rest ih =>
    intro s h
    exact ih _ (depthInv_step s e h)

/-- The depth invariant holds for every session run. -/
lemma depthInv_runSession (fen : String) (evs : List Event) :
    DepthInv (runSession fen evs) :=
  depthInv_runFrom evs _ (depthInv_init fen)

/-- A character list starting with `bestmove` does not start with `info`. -/
lemma isPrefixOf_bestmove_not_info (l : List Char)
    (h : ("bestmove".toList).isPrefixOf l = true) :
    ("info".toList).isPrefixOf l = false := by
  cases l with
  | nil => exact absurd h (by decide)
  | cons c cs =>
    have hb : ('b' == c) = true := by
      have hrfl : ("bestmove".toList).isPrefixOf (c :: cs)
          = (('b' == c) && ("estmove".toList).isPrefixOf cs) := rfl
      rw [hrfl] at h
      exact (Bool.and_eq_true_iff.mp h).1
    have hcb : c = 'b' := (eq_of_beq hb).symm
    show (('i' == c) && ("nfo".toList).isPrefixOf cs) = false
    rw [hcb]
    rw [show ('i' == 'b') = false from rfl, Bool.false_and]

/-- A line starting with `bestmove` does not start with `info`. -/
lemma startsWith_bestmove_not_info (line : String)
    (h : strStartsWith line "bestmove" = true) : strStartsWith line "info" = false :=
  isPrefixOf_bestmove_not_info line.toList h

/-- Appending an intermediate snapshot increments the info count. -/
lemma countInfo_append_info (l : List Snapshot) (r : StockfishEvaluation) :
    countInfo (l ++ [Snapshot.info r]) = countInfo l + 1 := by
  simp [countInfo, List.countP_append, List.countP_cons, isInfoB]

/-- Appending a terminal snapshot leaves the info count unchanged. -/
lemma countInfo_append_done (l : List Snapshot) (r : StockfishEvaluation) :
    countInfo (l ++ [Snapshot.done r]) = countInfo l := by
  simp [countInfo, List.countP_append, List.countP_cons, isInfoB]

/-- Per-line emission condition: on a live session whose running depth does
not exceed the depth of the last emission, processing a line delivers an
intermediate snapshot exactly when the line starts with `info`, contains
`depth`, and its depth field parses to a value strictly greater than the
depth at the last emission. -/
lemma processLine_info_emission (s : SessionState) (line : String)
    (hc : s.closed = false) (hd : s.result.depth ≤ s.lastDepth) :
    (countInfo (processLine s line).1.emitted > countInfo s.emitted ↔
      (strStartsWith line "info" = true ∧ hasSubStr line "depth" = true ∧
        ∃ d, matchNum "depth " line = some d ∧ s.lastDepth < d)) := by
  unfold processLine
  split
  · rename_i hbm
    have hni : strStartsWith line "info" = false := startsWith_bestmove_not_info line hbm
    have hib : infoBranch s line = s := by
      unfold infoBranch
      rw [hni]
      rfl
    dsimp only
    rw [hib]
    simp [emit, hc, countInfo_append_done, hni]
  · show countInfo (infoBranch s line).emitted > countInfo s.emitted ↔ _
    unfold infoBranch
    split
    · rename_i hinfo
      have hsi : strStartsWith line "info" = true := (Bool.and_eq_true_iff.mp hinfo).1
      have hsd : hasSubStr line "depth" = true := (Bool.and_eq_true_iff.mp hinfo).2
      split
      · rename_i hlt
        have hlt' : s.lastDepth < (parseInfoLine line s.result).depth :=
          of_decide_eq_true hlt
        unfold emit
        split
        · rename_i hcl
          simp [hc] at hcl
        · constructor
          · intro _
            cases hmd : matchNum "depth " line with
            | none =>
              exfalso
              rw [parseInfoLine_depth, hmd] at hlt'
              simp at hlt'
              omega
            | some d0 =>
              refine ⟨hsi, hsd, d0, rfl, ?_⟩
              rw [parseInfoLine_depth, hmd] at hlt'
              simpa using hlt'
          · intro _
            show countInfo (s.emitted ++ [Snapshot.info (parseInfoLine line s.result)])
              > countInfo s.emitted
            rw [countInfo_append_info]
            exact Nat.lt_succ_self _
      · rename_i hnlt
        have hle : (parseInfoLine line s.result).depth ≤ s.lastDepth := by
          have := of_decide_eq_false (Bool.of_not_eq_true hnlt)
          omega
        constructor
        · intro hcount
          exact absurd hcount (Nat.lt_irrefl _)
        · rintro ⟨-, -, d, hmd, hlt2⟩
          exfalso
          have : (parseInfoLine line s.result).depth = d := by
            rw [parseInfoLine_depth, hmd]
            rfl
          omega
    · rename_i hninfo
      constructor
      · intro hcount
        exact absurd hcount (Nat.lt_irrefl _)
      · rintro ⟨hsi, hsd, -⟩
        exact absurd (by rw [hsi, hsd]; rfl : (strStartsWith line "info" && hasSubStr line "depth") = true) hninfo

/-- C2: the depths of the delivered intermediate snapshots form a strictly
increasing sequence in every run; on a live session an intermediate snapshot
is delivered by a line exactly when the line starts with `info`, contains
`depth`, and parses to a depth strictly greater than the depth at the last
emission; and a run over depths 1, 1, 2 delivers exactly one snapshot per
distinct depth value. -/
theorem info_snapshots_strictly_increasing (fen : String) (evs : List Event) :
    List.Chain' (· < ·) (infoDepths (runSession fen evs).emitted) ∧
    (∀ line : String, (runSession fen evs).closed = false →
      (countInfo (processLine (runSession fen evs) line).1.emitted
          > countInfo (runSession fen evs).emitted ↔
        (strStartsWith line "info" = true ∧ hasSubStr line "depth" = true ∧
          ∃ d, matchNum "depth " line = some d ∧ (runSession fen evs).lastDepth < d))) ∧
    infoDepths (runSession "f"
      [.data "info depth 1 a\ninfo depth 1 b\ninfo depth 2 c\n"]).emitted = [1, 2] := by
  refine ⟨(depthInv_runSession fen evs).1, ?_, ?_⟩
  · intro line hc
    exact processLine_info_emission _ line hc (depthInv_runSession fen evs).2.2
  · decide

/-- Witness for C2: after an info line of depth 1, a line of depth 2 delivers
a snapshot, and the delivered depths are strictly increasing. -/
theorem info_snapshots_strictly_increasing_witness :
    (countInfo (processLine (runSession "f" [Event.data "info depth 1 \n"])
        "info depth 2 x").1.emitted
      > countInfo (runSession "f" [Event.data "info depth 1 \n"]).emitted) ∧
    List.Chain' (· < ·)
      (infoDepths (runSession "f" [Event.data "info depth 1 \n"]).emitted) := by
  have h := info_snapshots_strictly_increasing "f" [Event.data "info depth 1 \n"]
  constructor
  · exact (h.2.1 "info depth 2 x" (by decide)).mpr
      ⟨by decide, by decide, 2, by decide, by decide⟩
  · exact h.1

/-- Counterexample to C3 as stated: a line containing `score cp 5` that also
matches the mate pattern ends with the mate marker, not `5/100`, even with
White to move, because the mate stanza runs after the centipawn stanza and
overwrites `evaluation`. -/
theorem score_cp_perspective_cex :
    hasSubStr "info depth 1 score cp 5 score mate 3" "score cp" = true ∧
    matchInt "score cp " "info depth 1 score cp 5 score mate 3" = some 5 ∧
    (splitSpaceStr (initResult "8/8/8/8/8/8/8/8 w - - 0 1").fen)[1]? = some "w" ∧
    (parseInfoLine "info depth 1 score cp 5 score mate 3"
        (initResult "8/8/8/8/8/8/8/8 w - - 0 1")).evaluation = EvalScore.mate "M3" ∧
    EvalScore.mate "M3" ≠ EvalScore.num ((5 : ℚ) / 100) := by
  refine ⟨by decide, by decide, by decide, by decide, by decide⟩

/-- C3 amended: for every line whose centipawn pattern matches value `x` and
whose mate pattern does not fire (the mate stanza would otherwise overwrite
the value afterwards), the stored evaluation is `x/100` when the session
`fen`'s side-to-move field is White and `-x/100` when it is Black. -/
theorem score_cp_perspective (line fen : String) (r : StockfishEvaluation) (x : Int)
    (hfen : r.fen = fen)
    (hinc : hasSubStr line "score cp" = true)
    (hm : matchInt "score cp " line = some x)
    (hnomate : (hasSubStr line "score mate"
      && (matchSignedCap "score mate " line).isSome) = false) :
    ((splitSpaceStr fen)[1]? = some "w" →
        (parseInfoLine line r).evaluation = .num ((x : ℚ) / 100)) ∧
    ((splitSpaceStr fen)[1]? = some "b" →
        (parseInfoLine line r).evaluation = .num (((-x : Int) : ℚ) / 100)) := by
  have hfen3 : (applyTime line (applyNodes line (applyDepth line r))).fen = fen := by
    rw [(applyNumeric_frame line r).2.2, hfen]
  have hcp := applyCp_eval_of_match line
    (applyTime line (applyNodes line (applyDepth line r))) x hinc hm
  rw [hfen3] at hcp
  have heval : (parseInfoLine line r).evaluation =
      .num (((if fen ≠ "" then
          if (splitSpaceStr fen)[1]? = some "b" then -x else x
        else x : Int) : ℚ) / 100) := by
    unfold parseInfoLine
    rw [(applyPv_frame line _).1, applyMate_eval_nop _ _ hnomate, hcp]
  constructor
  · intro hw
    have hne : fen ≠ "" := by
      intro he
      rw [he] at hw
      exact absurd hw (by decide)
    have hbne : ¬((splitSpaceStr fen)[1]? = some "b") := by
      rw [hw]
      decide
    rw [heval, if_pos hne, if_neg hbne]
  · intro hb
    have hne : fen ≠ "" := by
      intro he
      rw [he] at hb
      exact absurd hb (by decide)
    rw [heval, if_pos hne, if_pos hb]

/-- Witness for the amended C3, on both sides to move. -/
theorem score_cp_perspective_witness :
    (parseInfoLine "info depth 1 score cp 50"
        (initResult "8/8/8/8/8/8/8/8 w - - 0 1")).evaluation
      = EvalScore.num ((50 : ℚ) / 100) ∧
    (parseInfoLine "info depth 1 score cp 50"
        (initResult "8/8/8/8/8/8/8/8 b - - 0 1")).evaluation
      = EvalScore.num (((-50 : Int) : ℚ) / 100) := by
  constructor
  · exact (score_cp_perspective "info depth 1 score cp 50" "8/8/8/8/8/8/8/8 w - - 0 1"
      (initResult "8/8/8/8/8/8/8/8 w - - 0 1") 50 rfl (by decide) (by decide) (by decide)).1
      (by decide)
  · exact (score_cp_perspective "info depth 1 score cp 50" "8/8/8/8/8/8/8/8 b - - 0 1"
      (initResult "8/8/8/8/8/8/8/8 b - - 0 1") 50 rfl (by decide) (by decide) (by decide)).2
      (by decide)

/-- Counterexample to C6 as stated: after a depth-5 line, a line reporting
the smaller depth 3 overwrites the running `depth` down to 3, so the field
is not the highest depth reported so far and does decrease within a
session. -/
theorem depth_monotonicity_cex :
    (runSession "f" [.data "info depth 5 \n"]).result.depth = 5 ∧
    (runSession "f" [.data "info depth 5 \ninfo depth 3 \n"]).result.depth = 3 ∧
    (runSession "f" [.data "info depth 5 \ninfo depth 3 \n"]).result.depth
      < (runSession "f" [.data "info depth 5 \n"]).result.depth := by
  refine ⟨by decide, by decide, by decide⟩

/-- C6 amended: the running `depth` is the most recently parsed depth value:
a line whose depth field parses to `d` overwrites `depth` with `d`, even when
`d` is smaller than the current value, and a line without a parsable depth
field leaves `depth` unchanged.  It is therefore non-decreasing only when the
reported depth values are. -/
theorem depth_overwrite (line : String) (r : StockfishEvaluation) :
    (∀ d, matchNum "depth " line = some d → (parseInfoLine line r).depth = d) ∧
    (matchNum "depth " line = none → (parseInfoLine line r).depth = r.depth) := by
  constructor
  · intro d hm
    rw [parseInfoLine_depth, hm]
    rfl
  · intro hm
    rw [parseInfoLine_depth, hm]
    rfl

/-- Witness for the amended C6: a parsed depth overwrites, a missing depth
leaves the field alone. -/
theorem depth_overwrite_witness :
    (parseInfoLine "info depth 7 x" (initResult "f")).depth = 7 ∧
    (parseInfoLine "uciok" (initResult "f")).depth = 0 :=
  ⟨(depth_overwrite "info depth 7 x" (initResult "f")).1 7 (by decide),
   (depth_overwrite "uciok" (initResult "f")).2 (by decide)⟩

/-- C7: a line whose pv pattern matches overwrites `principalVariation` with
the space-split tokens of the text after the pv marker, truncated to the
first six; the stored variation hence never exceeds six entries and depends
only on the current line (the previous value is discarded, never merged); and
the specification's seven-move line keeps exactly its first six moves. -/
theorem pv_truncated_to_six (line : String) (r : StockfishEvaluation) (rest : String)
    (hinc : hasSubStr line "pv " = true)
    (hm : matchRest "pv " line = some rest) :
    (parseInfoLine line r).principalVariation = (splitSpaceStr rest).take 6 ∧
    (parseInfoLine line r).principalVariation.length ≤ 6 ∧
    (parseInfoLine "info pv e2e4 e7e5 g1f3 b8c6 f1b5 a7a6 d2d3" r).principalVariation
      = ["e2e4", "e7e5", "g1f3", "b8c6", "f1b5", "a7a6"] := by
  have h1 := (parseInfoLine_pv line r).1 hinc rest hm
  refine ⟨h1, ?_, ?_⟩
  · rw [h1, List.length_take]
    omega
  · have h2 := (parseInfoLine_pv "info pv e2e4 e7e5 g1f3 b8c6 f1b5 a7a6 d2d3" r).1
      (by decide) "e2e4 e7e5 g1f3 b8c6 f1b5 a7a6 d2d3" (by decide)
    rw [h2]
    decide

/-- Witness for C7. -/
theorem pv_truncated_to_six_witness :
    (parseInfoLine "info pv a1b2 c3d4" (initResult "f")).principalVariation
      = ["a1b2", "c3d4"] := by
  have h := (pv_truncated_to_six "info pv a1b2 c3d4" (initResult "f") "a1b2 c3d4"
    (by decide) (by decide)).1
  rw [h]
  decide

/-- C10: the info-line parser never touches `bestMove`, `nps` or `fen` — only
the session's `bestmove` branch does — and a terminal line whose token fails
the `\w+` pattern (such as `bestmove (none)`) still yields exactly one
terminal snapshot with `bestMove` left at its prior empty value. -/
theorem parseInfoLine_frame_terminal_fields (line : String) (r : StockfishEvaluation) :
    (parseInfoLine line r).bestMove = r.bestMove ∧
    (parseInfoLine line r).nps = r.nps ∧
    (parseInfoLine line r).fen = r.fen ∧
    (runSession "f" [.data "bestmove (none)\n"]).emitted
      = [Snapshot.done (initResult "f")] :=
  ⟨parseInfoLine_bestMove line r, parseInfoLine_nps line r, parseInfoLine_fen line r,
    by decide⟩

/-- When the `/bestmove (\w+)/` pattern matches, the bestmove-branch result
mutations set the move token and derive `nps` exactly when `time` is
positive. -/
lemma bestmoveResult_spec (r : StockfishEvaluation) (line m : String)
    (hm : matchWord "bestmove " line = some m) :
    bestmoveResult r line
      = if 0 < r.time
        then { r with bestMove := m, nps := some (jsRound ((r.nodes : ℚ) / ((r.time : ℚ) / 1000))) }
        else { r with bestMove := m } := by
  unfold bestmoveResult
  rw [hm]
  dsimp only
  by_cases ht : 0 < r.time
  · rw [if_pos (decide_eq_true ht), if_pos ht]
  · rw [if_neg (by simpa using ht), if_neg ht]

/-- C8: processing a `bestmove` line on a live session halts the loop,
delivers exactly one terminal snapshot, stores the extracted move, and sets
`nps = round(nodes / (time/1000))` if and only if the accumulated `time` is
strictly positive (leaving `nps` untouched — hence undefined in a fresh
session — otherwise); with `time = 4000` and `nodes = 2000000` the derived
value is 500000, and a session fed only `bestmove e2e4` delivers exactly one
terminal snapshot with `nps` undefined. -/
theorem bestmove_terminal_nps (s : SessionState) (line m : String)
    (hc : s.closed = false)
    (hbm : strStartsWith line "bestmove" = true)
    (hm : matchWord "bestmove " line = some m) :
    (processLine s line).2 = true ∧
    (processLine s line).1.emitted
      = s.emitted ++ [Snapshot.done (processLine s line).1.result] ∧
    (processLine s line).1.result.bestMove = m ∧
    (processLine s line).1.result.nps
      = (if 0 < s.result.time
         then some (jsRound ((s.result.nodes : ℚ) / ((s.result.time : ℚ) / 1000)))
         else s.result.nps) ∧
    jsRound ((2000000 : ℚ) / ((4000 : ℚ) / 1000)) = 500000 ∧
    (runSession "f" [.data "bestmove e2e4\n"]).emitted
      = [Snapshot.done { initResult "f" with bestMove := "e2e4" }] := by
  have hib : infoBranch s line = s := by
    unfold infoBranch
    rw [startsWith_bestmove_not_info line hbm]
    rfl
  have hspec := bestmoveResult_spec s.result line m hm
  unfold processLine
  rw [if_pos hbm, hib,
    emit_open { s with result := bestmoveResult s.result line, finished := true } _ hc]
  dsimp only
  refine ⟨rfl, rfl, ?_, ?_, ?_, by decide⟩
  · rw [hspec]
    by_cases ht : 0 < s.result.time
    · rw [if_pos ht]
    · rw [if_neg ht]
  · rw [hspec]
    by_cases ht : 0 < s.result.time
    · rw [if_pos ht, if_pos ht]
    · rw [if_neg ht, if_neg ht]
  · show (⌊(2000000 : ℚ) / ((4000 : ℚ) / 1000) + 1 / 2⌋ : Int) = 500000
    norm_num

/-- Witness for C8: a terminal line after time 4000 and nodes 2000000 yields
nps 500000; a terminal line with time still 0 leaves nps undefined. -/
theorem bestmove_terminal_nps_witness :
    (processLine { initSession "f" with
        result := { initResult "f" with time := 4000, nodes := 2000000 } }
      "bestmove e2e4").1.result.nps = some 500000 ∧
    (processLine (initSession "f") "bestmove e2e4").1.result.nps = none := by
  constructor
  · have h := bestmove_terminal_nps { initSession "f" with
        result := { initResult "f" with time := 4000, nodes := 2000000 } }
      "bestmove e2e4" "e2e4" (by decide) (by decide) (by decide)
    rw [h.2.2.2.1, if_pos (by decide)]
    show some (jsRound ((2000000 : ℚ) / ((4000 : ℚ) / 1000))) = some 500000
    rw [h.2.2.2.2.1]
  · have h := bestmove_terminal_nps (initSession "f") "bestmove e2e4" "e2e4"
      (by decide) (by decide) (by decide)
    rw [h.2.2.2.1, if_neg (by decide)]
    rfl

/-- C9: the info-line parser is total (it is a Lean function) and each field
pattern that fails to match leaves its field untouched: a failed depth,
nodes or time regex, a score whose two patterns both fail, a pv pattern that
fails; and a line starting with neither recognized prefix leaves the whole
session state untouched. -/
theorem parser_never_throws_fields_untouched (line : String) (r : StockfishEvaluation) :
    (matchNum "depth " line = none → (parseInfoLine line r).depth = r.depth) ∧
    (matchNum "nodes " line = none → (parseInfoLine line r).nodes = r.nodes) ∧
    (matchNum "time " line = none → (parseInfoLine line r).time = r.time) ∧
    ((hasSubStr line "score cp" && (matchInt "score cp " line).isSome) = false →
      (hasSubStr line "score mate" && (matchSignedCap "score mate " line).isSome) = false →
      (parseInfoLine line r).evaluation = r.evaluation) ∧
    ((hasSubStr line "pv " && (matchRest "pv " line).isSome) = false →
      (parseInfoLine line r).principalVariation = r.principalVariation) ∧
    (∀ s : SessionState, strStartsWith line "info" = false →
      strStartsWith line "bestmove" = false →
      processLine s line = (s, false)) := by
  refine ⟨?_, ?_, ?_, ?_, ?_, ?_⟩
  · intro hmn
    rw [parseInfoLine_depth, hmn]
    rfl
  · intro hmn
    rw [parseInfoLine_nodes, hmn]
    rfl
  · intro hmn
    rw [parseInfoLine_time, hmn]
    rfl
  · intro h1 h2
    unfold parseInfoLine
    rw [(applyPv_frame line _).1, applyMate_eval_nop _ _ h2, applyCp_eval_nop _ _ h1,
      (applyNumeric_frame line r).1]
  · exact (parseInfoLine_pv line r).2
  · intro s hi hb
    unfold processLine
    rw [if_neg (by rw [hb]; exact Bool.false_ne_true)]
    unfold infoBranch
    rw [if_neg (by rw [hi, Bool.false_and]; exact Bool.false_ne_true)]

/-- Witness for C9 on the unrecognized line `uciok`. -/
theorem parser_never_throws_witness :
    (parseInfoLine "uciok" (initResult "f")).depth = 0 ∧
    (parseInfoLine "uciok" (initResult "f")).evaluation = EvalScore.unset ∧
    processLine (initSession "f") "uciok" = (initSession "f", false) := by
  have h := parser_never_throws_fields_untouched "uciok" (initResult "f")
  exact ⟨h.1 (by decide), h.2.2.2.1 (by decide) (by decide),
    h.2.2.2.2.2 (initSession "f") (by decide) (by decide)⟩
